import Mathlib

/-!
Shallow embedding of the patch-verification core of the repository
(codemonkeys): the context-chunk builder of
`codemonkeys/stages/context/localization.py`, the line diff of
`codemonkeys/export_final_patches.py`, and the sandboxed test runner of
`codemonkeys/swe_bench/test_runner/test_execution.py`.  Python strings are
modelled as `String`/`List Char`, Python ints as `Int` (`Nat` where the
source only ever sees non-negative values), external effects (containers,
subprocesses, the persistent store) as explicit action traces.
-/

namespace CodeMonkeys

/-! ## Context chunks (localization.py) -/

/-- One contiguous excerpt of a file: `ContextChunk` of
`codemonkeys/trajectory_data/structs.py` as used by `localization.py`
(`line_number` is 1-based, `content` the lines of the excerpt). -/
structure ContextChunk where
  line_number : Int
  content : List String
deriving Repr, DecidableEq

/-- The per-file result of localization: `RelevantChunks` of
`codemonkeys/trajectory_data/structs.py`. -/
structure RelevantChunks where
  message : String
  chunks : List ContextChunk
  file_path : String
deriving Repr, DecidableEq

/-- Python list slicing `xs[a : b]` for the non-negative bounds that arise in
`localization.py` (all slice arguments below are provably within
`0 ≤ a` and `b ≤ len xs` under the invariants of the call sites; the
negative-index wraparound of Python slices is not modelled). -/
def pySlice {α : Type} (xs : List α) (a b : Int) : List α :=
  (xs.drop a.toNat).take (b - a).toNat

/-- The line-number extraction loop of `create_context_chunks`
(localization.py lines 44-52): keep locations starting with `"line:"`,
take the text between the first and second colon, strip it and parse it as
an int, skipping entries that fail to parse (`ValueError`).  Python's
`int()` is modelled for optional-sign decimal numerals via
`String.toInt?`. -/
def extractLineNumbers (locations : List String) : List Int :=
  locations.filterMap fun loc =>
    if loc.startsWith "line:" then
      match (loc.splitOn ":").get? 1 with
      | some s => s.trim.toInt?
      | none => none
    else none

/-- The first loop of `create_context_chunks` (localization.py lines 60-75):
for each line number in order, skip it when out of range, otherwise build
the chunk `lines[start_line - 1 : end_line]` with
`start_line = max 1 (line_num - context_lines)` and
`end_line = min (len lines) (line_num + context_lines)`. -/
def buildChunks (lines : List String) (context_lines : Int) :
    List Int → List ContextChunk
  | [] => []
  | line_num :: rest =>
    if line_num < 1 ∨ line_num > (lines.length : Int) then
      buildChunks lines context_lines rest
    else
      let start_line := max 1 (line_num - context_lines)
      let end_line := min (lines.length : Int) (line_num + context_lines)
      ⟨start_line, pySlice lines (start_line - 1) end_line⟩
        :: buildChunks lines context_lines rest

/-- The combining loop of `create_context_chunks` (localization.py lines
81-100): starting from the first chunk, merge the next chunk into the
current one whenever `next.line_number ≤ current.line_number +
len current.content`, recomputing the merged content as
`lines[current.line_number - 1 : next.line_number + len next.content - 1]`;
otherwise emit the current chunk and continue from the next. -/
def combineChunks (lines : List String) :
    ContextChunk → List ContextChunk → List ContextChunk
  | current_chunk, [] => [current_chunk]
  | current_chunk, next_chunk :: rest =>
    let current_end := current_chunk.line_number + (current_chunk.content.length : Int)
    if next_chunk.line_number ≤ current_end then
      combineChunks lines
        ⟨current_chunk.line_number,
          pySlice lines (current_chunk.line_number - 1)
            (next_chunk.line_number + (next_chunk.content.length : Int) - 1)⟩
        rest
    else
      current_chunk :: combineChunks lines next_chunk rest

/-- The combining step lifted to a whole (possibly empty) chunk list, exactly
as `create_context_chunks` runs it on `chunks[0]` and `chunks[1:]`. -/
def combineAll (lines : List String) : List ContextChunk → List ContextChunk
  | [] => []
  | c :: cs => combineChunks lines c cs

/-- `create_context_chunks` of localization.py (lines 25-102): extract the
set of line numbers from the locations (Python's `sorted(set(...))` is the
sort of the deduplicated list), return an empty result when there are
none, otherwise split the file content on `"\n"`, build one context window
per in-range line number in ascending order and combine overlapping
windows.  The source's `context_lines` default is `200`. -/
def create_context_chunks (message : String) (locations : List String)
    (file_path : String) (file_content : String) (context_lines : Int) :
    RelevantChunks :=
  let line_numbers := (extractLineNumbers locations).dedup
  if line_numbers.isEmpty then
    ⟨message, [], file_path⟩
  else
    let lines := file_content.splitOn "\n"
    let chunks :=
      buildChunks lines context_lines (List.insertionSort (· ≤ ·) line_numbers)
    match chunks with
    | [] => ⟨message, [], file_path⟩
    | c :: cs => ⟨message, combineChunks lines c cs, file_path⟩

/-- The exclusive end line of a chunk, `line_number + len content`:
the `current_end` of the combining loop. -/
def cStop (c : ContextChunk) : Int :=
  c.line_number + (c.content.length : Int)

/-- Line `L` lies inside chunk `c`. -/
def covers (c : ContextChunk) (L : Int) : Prop :=
  c.line_number ≤ L ∧ L < cStop c

/-- Chunk `c` is a well-formed, non-empty window into a file of `n` lines. -/
def inFile (n : Int) (c : ContextChunk) : Prop :=
  1 ≤ c.line_number ∧ c.line_number < cStop c ∧ cStop c ≤ n + 1

/-- Chunk `d` starts strictly after chunk `c` ends, with at least one
omitted line between them. -/
def sepChunks (c d : ContextChunk) : Prop :=
  cStop c < d.line_number

/-- Chunk `c` starts no later and ends no later than chunk `d`. -/
def orderedChunks (c d : ContextChunk) : Prop :=
  c.line_number ≤ d.line_number ∧ cStop c ≤ cStop d

/-! ## Line diffs (export_final_patches.py) -/

/-- One positional edit record of `export_final_patches.py`:
`line_number` is the 0-based index where the two versions differ. -/
structure Edit where
  file_name : String
  line_number : Nat
  line_content : String
  new_line_content : String
deriving Repr, DecidableEq

/-- `Patch` of `export_final_patches.py`: an ordered list of edits. -/
structure Patch where
  edits : List Edit
deriving Repr, DecidableEq

/-- Worker for `splitlines`: accumulate the current line (reversed) and cut
at a line boundary; at the end of the text a non-empty trailing line is
emitted and an empty one is not. -/
def splitlinesAux : List Char → List Char → List (List Char)
  | acc, [] => if acc.isEmpty then [] else [acc.reverse]
  | acc, '\r' :: '\n' :: rest => acc.reverse :: splitlinesAux [] rest
  | acc, '\n' :: rest => acc.reverse :: splitlinesAux [] rest
  | acc, '\r' :: rest => acc.reverse :: splitlinesAux [] rest
  | acc, c :: rest => splitlinesAux (c :: acc) rest

/-- Python's `str.splitlines()` for the line boundaries `"\n"`, `"\r\n"` and
`"\r"` (the rarer Unicode boundaries `str.splitlines` also cuts at are not
modelled): no trailing empty line is produced for text ending in a line
boundary, and the empty text has no lines. -/
def splitlines (s : String) : List String :=
  (splitlinesAux [] s.data).map fun cs => String.mk cs

/-- The inner loop of `create_patch` (export_final_patches.py lines 26-39)
for one file: compare the two versions line by line up to the longer line
count, reading a missing line past either end as `""`, and record one
`Edit` per index where they differ. -/
def createPatchEdits (file_name old_content new_content : String) : List Edit :=
  let old_lines := splitlines old_content
  let new_lines := splitlines new_content
  let max_lines := max old_lines.length new_lines.length
  (List.range max_lines).filterMap fun i =>
    let old_line := old_lines.getD i ""
    let new_line := new_lines.getD i ""
    if old_line ≠ new_line then
      some ⟨file_name, i, old_line, new_line⟩
    else none

/-- Python's `zip` over three lists: truncate to the shortest. -/
def pyZip3 {α β γ : Type} : List α → List β → List γ → List (α × β × γ)
  | a :: as, b :: bs, c :: cs => (a, b, c) :: pyZip3 as bs cs
  | _, _, _ => []

/-- `create_patch` of export_final_patches.py (lines 19-40): zip the file
names with the old and new contents and concatenate the per-file edit
lists (the final `model_dump` round-trip through pydantic is the
identity on the edit records). -/
def create_patch (file_names : List String)
    (old_contents new_contents : List String) : Patch :=
  ⟨(pyZip3 file_names old_contents new_contents).flatMap
    fun fon => createPatchEdits fon.1 fon.2.1 fon.2.2⟩

/-! ## Output truncation and ExecutionOutput (test_execution.py) -/

/-- `truncate_output` of test_execution.py (lines 19-36) over Python strings
modelled as `List Char`: output within the budget is returned unchanged;
otherwise the first `max_length / 2` and the last
`max_length - max_length / 2` characters surround a marker stating how
many characters were cut. -/
def truncate_output (output : List Char) (max_length : Nat) : List Char :=
  if output.length ≤ max_length then output
  else
    let front_length := max_length / 2
    let back_length := max_length - front_length
    let num_truncatable_chars := output.length - max_length
    "[Output too long, truncating middle portion]\n\n".data
      ++ output.take front_length
      ++ ("\n\n[Truncating ".data ++ (toString num_truncatable_chars).data
          ++ " characters]\n\n".data)
      ++ output.drop (output.length - back_length)

/-- `ExecutionOutput` of test_execution.py (lines 39-43): `stdout` is a
Python `str | None`. -/
structure ExecutionOutput where
  stdout : Option (List Char)
  exit_code : Int
  timed_out : Bool
deriving Repr, DecidableEq

/-- `ExecutionOutput.render_stdout` of test_execution.py (lines 45-55). -/
def ExecutionOutput.render_stdout (self : ExecutionOutput)
    (max_chars : Option Nat) : List Char :=
  if self.timed_out then "[Running script timed out]".data
  else
    match self.stdout with
    | none => "[Running script produced no output]".data
    | some s =>
      match max_chars with
      | none => s
      | some m => truncate_output s m

/-! ## Sandbox runs (test_execution.py)

The container and subprocess plumbing is modelled as an environment of
externally determined exit codes plus an explicit trace of the commands a
run issues, each tagged with the tree it acts on: the caller-supplied
canonical repository (`problem.repo_location` / the container image's
pristine state) or the disposable working copy (the started container /
the `tempfile.TemporaryDirectory` copy). -/

/-- The tree a sandbox command acts on. -/
inductive Tree
  | canonical
  | disposable
deriving Repr, DecidableEq

/-- One externally visible command of a sandbox run. -/
inductive SandboxAction
  | copyTree
  | writePatchFile (t : Tree)
  | gitReset (t : Tree)
  | gitApply (t : Tree)
  | fuzzyApply (t : Tree)
  | writeScript (t : Tree)
  | runScript (t : Tree)
deriving Repr, DecidableEq

/-- The tree a sandbox action is tagged with (`copyTree` reads the
canonical tree and creates the disposable one, so it carries no tag). -/
def SandboxAction.tree : SandboxAction → Option Tree
  | .copyTree => none
  | .writePatchFile t => some t
  | .gitReset t => some t
  | .gitApply t => some t
  | .fuzzyApply t => some t
  | .writeScript t => some t
  | .runScript t => some t

/-- A raised Python exception escaping the function. -/
inductive PyError
  | valueError (msg : String)
deriving Repr, DecidableEq

/-- Environment of one `execute_script_container` run: the exit codes the
container would report for each command, and the script's behaviour. -/
structure ContainerEnv where
  gitApplyExitCode : Int
  fuzzyApplyExitCode : Int
  scriptExitCode : Int
  scriptStdout : List Char
  scriptTimedOut : Bool
deriving Repr, DecidableEq

/-- Lines 128-144 of test_execution.py: run the reproduce script in the
container and package the result, forcing the exit code to 1 on a
timeout. -/
def containerRunScript (env : ContainerEnv) : ExecutionOutput :=
  ⟨some env.scriptStdout,
    if env.scriptTimedOut then 1 else env.scriptExitCode,
    env.scriptTimedOut⟩

/-- `execute_script_container` of test_execution.py (lines 67-144): with a
patch, write it into the container and `git apply` it; on a non-zero exit
code fall back to `patch --batch --fuzz=5 -p1`; if that also fails,
either return a diagnostic `ExecutionOutput` (when
`return_error_as_execution_output`) or raise `ValueError`; only after a
successful application (or with no patch) write and run the script. -/
def execute_script_container (env : ContainerEnv) (patch : Option (List Char))
    (return_error_as_execution_output : Bool) :
    Except PyError ExecutionOutput × List SandboxAction :=
  match patch with
  | none =>
    (Except.ok (containerRunScript env),
      [SandboxAction.writeScript Tree.disposable,
       SandboxAction.runScript Tree.disposable])
  | some _ =>
    let applied : List SandboxAction :=
      [SandboxAction.writePatchFile Tree.disposable,
       SandboxAction.gitApply Tree.disposable]
    if env.gitApplyExitCode ≠ 0 then
      let applied := applied ++ [SandboxAction.fuzzyApply Tree.disposable]
      if env.fuzzyApplyExitCode ≠ 0 then
        if return_error_as_execution_output then
          (Except.ok ⟨some "Could not apply patch to repository".data, 1, false⟩,
            applied)
        else
          (Except.error (PyError.valueError "error applying patch"), applied)
      else
        (Except.ok (containerRunScript env),
          applied ++ [SandboxAction.writeScript Tree.disposable,
                      SandboxAction.runScript Tree.disposable])
    else
      (Except.ok (containerRunScript env),
        applied ++ [SandboxAction.writeScript Tree.disposable,
                    SandboxAction.runScript Tree.disposable])

/-- Environment of one `execute_script` (local, subprocess-based) run. -/
structure LocalEnv where
  resetOrApplyRaises : Bool
  gitApplyExitCode : Int
  fuzzyApplyExitCode : Int
  fuzzyApplyRaises : Bool
  scriptTimedOut : Bool
  scriptRaises : Bool
  scriptExitCode : Int
  scriptStdout : Option (List Char)
deriving Repr, DecidableEq

/-- Lines 219-255 of test_execution.py: run the script with
`subprocess.run(..., timeout)`; a `TimeoutExpired` yields exit code 1 with
`timed_out=True`, another exception yields exit code 1, otherwise the
captured stdout (an absent stdout is read as `""`) and return code are
packaged. -/
def localRunScript (env : LocalEnv) : ExecutionOutput :=
  if env.scriptTimedOut then
    ⟨some "Script execution timed out".data, 1, true⟩
  else if env.scriptRaises then
    ⟨some "Error running script command".data, 1, false⟩
  else
    ⟨some (env.scriptStdout.getD []), env.scriptExitCode, false⟩

/-- `execute_script` of test_execution.py (lines 147-262): copy the
repository into a temporary directory; with a patch, `git reset --hard`
and `git apply` there with `check=False` (an exception in that block
returns a diagnostic output only when `return_error_as_execution_output`,
and otherwise falls through), then set `patch_apply_exit_code = 0`
(line 182) — making the fuzzy-fallback block of lines 184-212 dead
code — and run the script in the copy. -/
def execute_script (env : LocalEnv) (patch : Option (List Char))
    (return_error_as_execution_output : Bool) :
    Except PyError ExecutionOutput × List SandboxAction :=
  let copied := [SandboxAction.copyTree]
  match patch with
  | none =>
    (Except.ok (localRunScript env),
      copied ++ [SandboxAction.writeScript Tree.disposable,
                 SandboxAction.runScript Tree.disposable])
  | some _ =>
    let applied := copied ++
      [SandboxAction.gitReset Tree.disposable,
       SandboxAction.writePatchFile Tree.disposable,
       SandboxAction.gitApply Tree.disposable]
    if env.resetOrApplyRaises ∧ return_error_as_execution_output then
      (Except.ok ⟨some "Error applying patch".data, 1, false⟩, applied)
    else
      let patch_apply_exit_code : Int := 0
      if patch_apply_exit_code ≠ 0 then
        let applied := applied ++ [SandboxAction.fuzzyApply Tree.disposable]
        if env.fuzzyApplyRaises ∧ return_error_as_execution_output then
          (Except.ok ⟨some "Error applying fuzzy patch".data, 1, false⟩, applied)
        else if env.fuzzyApplyExitCode ≠ 0 then
          if return_error_as_execution_output then
            (Except.ok ⟨some "Could not apply patch to repository".data, 1, false⟩,
              applied)
          else
            (Except.error (PyError.valueError "error applying patch"), applied)
        else
          (Except.ok (localRunScript env),
            applied ++ [SandboxAction.writeScript Tree.disposable,
                        SandboxAction.runScript Tree.disposable])
      else
        (Except.ok (localRunScript env),
          applied ++ [SandboxAction.writeScript Tree.disposable,
                      SandboxAction.runScript Tree.disposable])

/-- The patch pre-application loop of `run_swebench_test_local`
(test_execution.py lines 275-309): when the patch string is truthy, run
`git apply --verbose`, then on an exception `git apply --verbose
--reject`, then on an exception `patch --batch --fuzz=8 -p1 -l`, each
with `cwd=problem.repo_location` — that is, against the canonical tree —
and stop after the first command that does not raise. -/
def swebenchLocalApplyLoop (cmd1Raises cmd2Raises : Bool) : List SandboxAction :=
  SandboxAction.gitApply Tree.canonical ::
    (if cmd1Raises then
      SandboxAction.gitApply Tree.canonical ::
        (if cmd2Raises then [SandboxAction.fuzzyApply Tree.canonical] else [])
    else [])

/-- `run_swebench_test_local` of test_execution.py (lines 265-336), as a
command trace: pre-apply the (truthy) patch at `problem.repo_location`,
then call `execute_script` with the same patch (its
`return_error_as_execution_output` defaults to `False`). -/
def run_swebench_test_local_actions (cmd1Raises cmd2Raises : Bool)
    (env : LocalEnv) (patch : List Char) : List SandboxAction :=
  (if patch ≠ [] then swebenchLocalApplyLoop cmd1Raises cmd2Raises else []) ++
    (execute_script env (some patch) false).2

/-! ## Localization work items (localization.py `_run_work`) -/

/-- The externally visible effects of one `_run_work` call. -/
inductive LocAction
  | completionRequest
  | saveRelevantChunks
deriving Repr, DecidableEq

/-- Environment of one `_run_work` call: whether the store already holds a
localization decision for the file, the token count that
`count_tokens.count_tokens` (an external utility) reports for the file
content, the completion text the LLM client would return, and the
locations `_parse_response` (a regex over that text) extracts from it. -/
structure LocalizationWorkEnv where
  decisionExists : Bool
  tokenCount : Nat
  response : String
  parsedLocations : List String
deriving Repr, DecidableEq

/-- `_run_work` of localization.py (lines 228-254) acting on the persistent
store, modelled as the list of per-file saved chunks: return at once when
a localization decision already exists; return after building the prompt
when the file's token count exceeds `config.max_file_tokens`; otherwise
request a completion, parse it, build the context chunks (with the
source's default `context_lines = 200`) and save them. -/
def run_work (max_file_tokens : Nat) (store : List (String × RelevantChunks))
    (env : LocalizationWorkEnv) (file_path file_content : String) :
    List (String × RelevantChunks) × List LocAction :=
  if env.decisionExists then (store, [])
  else if env.tokenCount > max_file_tokens then (store, [])
  else
    let relevant_chunks :=
      create_context_chunks env.response env.parsedLocations file_path
        file_content 200
    (store ++ [(file_path, relevant_chunks)],
      [LocAction.completionRequest, LocAction.saveRelevantChunks])

/-! ## Theorems -/

/-- Length of an in-range Python slice. -/
theorem pySlice_length {α : Type} (xs : List α) (a b : Int)
    (ha : 0 ≤ a) (hab : a ≤ b) (hb : b ≤ (xs.length : Int)) :
    ((pySlice xs a b).length : Int) = b - a := by
  unfold pySlice
  rw [List.length_take, List.length_drop]
  omega

/-- The context window `buildChunks` creates for an in-range line number
ends right after `min (len lines) (L + ctx)`. -/
theorem window_cStop (lines : List String) (ctx L : Int) (hctx : 0 ≤ ctx)
    (h1 : 1 ≤ L) (h2 : L ≤ (lines.length : Int)) :
    cStop ⟨max 1 (L - ctx), pySlice lines (max 1 (L - ctx) - 1)
        (min (lines.length : Int) (L + ctx))⟩ =
      min (lines.length : Int) (L + ctx) + 1 := by
  unfold cStop
  dsimp only
  rw [pySlice_length lines _ _ (by omega) (by omega) (by omega)]
  omega

/-- Every chunk `buildChunks` creates is the window of some in-range line
number of the input list. -/
theorem buildChunks_mem (lines : List String) (ctx : Int) (Ls : List Int)
    (c : ContextChunk) (hc : c ∈ buildChunks lines ctx Ls) :
    ∃ L ∈ Ls, 1 ≤ L ∧ L ≤ (lines.length : Int) ∧
      c = ⟨max 1 (L - ctx), pySlice lines (max 1 (L - ctx) - 1)
        (min (lines.length : Int) (L + ctx))⟩ := by
  induction Ls with
  | nil => cases hc
  | cons L rest ih =>
    by_cases h : L < 1 ∨ L > (lines.length : Int)
    · rw [buildChunks, if_pos h] at hc
      obtain ⟨L', hmem, hL'⟩ := ih hc
      exact ⟨L', List.mem_cons_of_mem _ hmem, hL'⟩
    · rw [buildChunks, if_neg h] at hc
      rcases List.mem_cons.1 hc with rfl | hc'
      · exact ⟨L, List.mem_cons_self _ _, by omega, by omega, rfl⟩
      · obtain ⟨L', hmem, hL'⟩ := ih hc'
        exact ⟨L', List.mem_cons_of_mem _ hmem, hL'⟩

/-- Every chunk `buildChunks` creates is a well-formed window into the
file. -/
theorem buildChunks_inFile (lines : List String) (ctx : Int)
    (hctx : 0 ≤ ctx) (Ls : List Int) (c : ContextChunk)
    (hc : c ∈ buildChunks lines ctx Ls) : inFile (lines.length : Int) c := by
  obtain ⟨L, -, h1, h2, rfl⟩ := buildChunks_mem lines ctx Ls c hc
  have hstop := window_cStop lines ctx L hctx h1 h2
  refine ⟨by dsimp only; omega, ?_, ?_⟩
  · rw [hstop]
    dsimp only
    omega
  · rw [hstop]
    omega

/-- Windows of a `(· ≤ ·)`-sorted line-number list come out with
non-decreasing starts and non-decreasing ends. -/
theorem buildChunks_sorted (lines : List String) (ctx : Int)
    (hctx : 0 ≤ ctx) (Ls : List Int) (hLs : List.Pairwise (· ≤ ·) Ls) :
    List.Pairwise orderedChunks (buildChunks lines ctx Ls) := by
  induction Ls with
  | nil => exact List.Pairwise.nil
  | cons L rest ih =>
    obtain ⟨hle, htail⟩ := List.pairwise_cons.1 hLs
    by_cases h : L < 1 ∨ L > (lines.length : Int)
    · rw [buildChunks, if_pos h]
      exact ih htail
    · rw [buildChunks, if_neg h]
      refine List.pairwise_cons.2 ⟨?_, ih htail⟩
      intro d hd
      obtain ⟨L', hmem', h1', h2', rfl⟩ := buildChunks_mem lines ctx rest d hd
      have hLL' : L ≤ L' := hle L' hmem'
      constructor
      · dsimp only
        omega
      · rw [window_cStop lines ctx L hctx (by omega) (by omega),
          window_cStop lines ctx L' hctx h1' h2']
        omega

/-- Every in-range line number of the input list is covered by one of the
windows `buildChunks` creates. -/
theorem buildChunks_covers (lines : List String) (ctx : Int)
    (hctx : 0 ≤ ctx) (Ls : List Int) (L : Int) (hmem : L ∈ Ls)
    (h1 : 1 ≤ L) (h2 : L ≤ (lines.length : Int)) :
    ∃ c ∈ buildChunks lines ctx Ls, covers c L := by
  induction Ls with
  | nil => cases hmem
  | cons M rest ih =>
    rcases List.mem_cons.1 hmem with rfl | hmem'
    · rw [buildChunks, if_neg (by omega)]
      refine ⟨_, List.mem_cons_self _ _, ?_, ?_⟩
      · dsimp only
        omega
      · rw [window_cStop lines ctx L hctx h1 h2]
        omega
    · by_cases h : M < 1 ∨ M > (lines.length : Int)
      · rw [buildChunks, if_pos h]
        exact ih hmem'
      · rw [buildChunks, if_neg h]
        obtain ⟨c, hc, hcov⟩ := ih hmem'
        exact ⟨c, List.mem_cons_of_mem _ hc, hcov⟩

/-- The combining loop of `create_context_chunks`, given well-formed
windows with non-decreasing starts and ends: every output chunk is
well-formed and starts no earlier than the accumulator, the output
chunks are strictly separated, and every line covered by an input chunk
is covered by an output chunk. -/
theorem combineChunks_spec (lines : List String) (cs : List ContextChunk) :
    ∀ cur : ContextChunk,
    inFile (lines.length : Int) cur →
    (∀ c ∈ cs, inFile (lines.length : Int) c) →
    (∀ c ∈ cs, orderedChunks cur c) →
    List.Pairwise orderedChunks cs →
    (∀ c ∈ combineChunks lines cur cs, inFile (lines.length : Int) c) ∧
    (∀ c ∈ combineChunks lines cur cs, cur.line_number ≤ c.line_number) ∧
    List.Pairwise sepChunks (combineChunks lines cur cs) ∧
    (∀ L, covers cur L ∨ (∃ c ∈ cs, covers c L) →
      ∃ c ∈ combineChunks lines cur cs, covers c L) := by
  induction cs with
  | nil =>
    intro cur hcur _ _ _
    have hout : combineChunks lines cur [] = [cur] := rfl
    rw [hout]
    refine ⟨?_, ?_, ?_, ?_⟩
    · intro c hc
      rw [List.mem_singleton] at hc
      exact hc ▸ hcur
    · intro c hc
      rw [List.mem_singleton] at hc
      rw [hc]
    · exact List.pairwise_singleton _ _
    · intro L hL
      rcases hL with hL | ⟨c, hc, -⟩
      · exact ⟨cur, List.mem_singleton_self _, hL⟩
      · cases hc
  | cons next rest ih =>
    intro cur hcur hcs hord hpair
    obtain ⟨h1c, h2c, h3c⟩ := hcur
    have h2c' : cur.line_number < cur.line_number + (cur.content.length : Int) := h2c
    have h3c' : cur.line_number + (cur.content.length : Int) ≤ (lines.length : Int) + 1 := h3c
    obtain ⟨h1n, h2n, h3n⟩ := hcs next (List.mem_cons_self _ _)
    have h2n' : next.line_number < next.line_number + (next.content.length : Int) := h2n
    have h3n' : next.line_number + (next.content.length : Int) ≤ (lines.length : Int) + 1 := h3n
    obtain ⟨hon1, hon2⟩ := hord next (List.mem_cons_self _ _)
    have hon2' : cur.line_number + (cur.content.length : Int) ≤
      next.line_number + (next.content.length : Int) := hon2
    obtain ⟨hpn, hpt⟩ := List.pairwise_cons.1 hpair
    by_cases hm : next.line_number ≤ cur.line_number + (cur.content.length : Int)
    · have hrw : combineChunks lines cur (next :: rest) =
          combineChunks lines
            ⟨cur.line_number, pySlice lines (cur.line_number - 1)
              (next.line_number + (next.content.length : Int) - 1)⟩ rest := by
        rw [combineChunks, if_pos hm]
      have hlen : ((pySlice lines (cur.line_number - 1)
          (next.line_number + (next.content.length : Int) - 1)).length : Int) =
          (next.line_number + (next.content.length : Int) - 1) -
            (cur.line_number - 1) :=
        pySlice_length lines _ _ (by omega) (by omega) (by omega)
      have hstop : cStop ⟨cur.line_number, pySlice lines (cur.line_number - 1)
          (next.line_number + (next.content.length : Int) - 1)⟩ =
          next.line_number + (next.content.length : Int) := by
        unfold cStop
        dsimp only
        omega
      have hmerged : inFile (lines.length : Int)
          ⟨cur.line_number, pySlice lines (cur.line_number - 1)
            (next.line_number + (next.content.length : Int) - 1)⟩ := by
        refine ⟨h1c, ?_, ?_⟩
        · rw [hstop]
          dsimp only
          omega
        · rw [hstop]
          omega
      obtain ⟨ihA, ihB, ihC, ihD⟩ := ih _ hmerged
        (fun c hc => hcs c (List.mem_cons_of_mem _ hc))
        (fun c hc => ⟨(hord c (List.mem_cons_of_mem _ hc)).1,
          by rw [hstop]; exact (hpn c hc).2⟩)
        hpt
      rw [hrw]
      refine ⟨ihA, ihB, ihC, ?_⟩
      intro L hL
      apply ihD
      rcases hL with hL | hL
      · left
        obtain ⟨ha, hb⟩ := hL
        unfold cStop at hb
        refine ⟨ha, ?_⟩
        rw [hstop]
        omega
      · rcases hL with ⟨c, hc, hcov⟩
        rcases List.mem_cons.1 hc with rfl | hc'
        · left
          obtain ⟨ha, hb⟩ := hcov
          unfold cStop at hb
          refine ⟨?_, ?_⟩
          · dsimp only
            omega
          · rw [hstop]
            omega
        · exact Or.inr ⟨c, hc', hcov⟩
    · have hrw : combineChunks lines cur (next :: rest) =
          cur :: combineChunks lines next rest := by
        rw [combineChunks, if_neg hm]
      obtain ⟨ihA, ihB, ihC, ihD⟩ := ih next ⟨h1n, h2n, h3n⟩
        (fun c hc => hcs c (List.mem_cons_of_mem _ hc))
        (fun c hc => hpn c hc)
        hpt
      rw [hrw]
      refine ⟨?_, ?_, ?_, ?_⟩
      · intro c hc
        rcases List.mem_cons.1 hc with rfl | hc'
        · exact ⟨h1c, h2c, h3c⟩
        · exact ihA c hc'
      · intro c hc
        rcases List.mem_cons.1 hc with rfl | hc'
        · exact le_refl _
        · exact le_trans hon1 (ihB c hc')
      · refine List.pairwise_cons.2 ⟨?_, ihC⟩
        intro d hd
        have hdge := ihB d hd
        unfold sepChunks cStop
        omega
      · intro L hL
        rcases hL with hL | ⟨c, hc, hcov⟩
        · exact ⟨cur, List.mem_cons_self _ _, hL⟩
        · rcases List.mem_cons.1 hc with rfl | hc'
          · obtain ⟨d, hd, hdcov⟩ := ihD L (Or.inl hcov)
            exact ⟨d, List.mem_cons_of_mem _ hd, hdcov⟩
          · obtain ⟨d, hd, hdcov⟩ := ihD L (Or.inr ⟨c, hc', hcov⟩)
            exact ⟨d, List.mem_cons_of_mem _ hd, hdcov⟩

/-- The combining loop is the identity on a chunk list whose consecutive
chunks are already strictly separated. -/
theorem combineChunks_of_sep (lines : List String) (cs : List ContextChunk) :
    ∀ cur : ContextChunk, List.Pairwise sepChunks (cur :: cs) →
    combineChunks lines cur cs = cur :: cs := by
  induction cs with
  | nil => intro cur _; rfl
  | cons next rest ih =>
    intro cur hp
    obtain ⟨hpn, hpt⟩ := List.pairwise_cons.1 hp
    have hsep : sepChunks cur next := hpn next (List.mem_cons_self _ _)
    have hcond : ¬(next.line_number ≤ cur.line_number + (cur.content.length : Int)) := by
      unfold sepChunks cStop at hsep
      omega
    rw [combineChunks, if_neg hcond, ih next hpt]

/-- The chunks `create_context_chunks` outputs (for a non-negative context
radius) are well-formed windows into the file, pairwise strictly
separated, and cover every extracted in-range line number. -/
theorem create_context_chunks_invariants (message file_path file_content : String)
    (locations : List String) (ctx : Int) (hctx : 0 ≤ ctx) :
    (∀ c ∈ (create_context_chunks message locations file_path file_content ctx).chunks,
      inFile ((file_content.splitOn "\n").length : Int) c) ∧
    List.Pairwise sepChunks
      (create_context_chunks message locations file_path file_content ctx).chunks ∧
    (∀ L ∈ extractLineNumbers locations,
      1 ≤ L → L ≤ ((file_content.splitOn "\n").length : Int) →
      ∃ c ∈ (create_context_chunks message locations file_path file_content ctx).chunks,
        covers c L) := by
  simp only [create_context_chunks]
  by_cases hempty : (extractLineNumbers locations).dedup.isEmpty
  · rw [if_pos hempty]
    refine ⟨by simp, by simp, ?_⟩
    intro L hmem h1 h2
    exfalso
    rw [List.isEmpty_iff] at hempty
    have hLd : L ∈ (extractLineNumbers locations).dedup := List.mem_dedup.2 hmem
    rw [hempty] at hLd
    cases hLd
  · rw [if_neg hempty]
    have hsorted : List.Pairwise (· ≤ ·)
        (List.insertionSort (· ≤ ·) (extractLineNumbers locations).dedup) :=
      List.sorted_insertionSort _ _
    have hmemsl : ∀ L, L ∈ extractLineNumbers locations →
        L ∈ List.insertionSort (· ≤ ·) (extractLineNumbers locations).dedup :=
      fun L h =>
        (List.perm_insertionSort _ _).symm.subset (List.mem_dedup.2 h)
    cases hchunks : buildChunks (file_content.splitOn "\n") ctx
        (List.insertionSort (· ≤ ·) (extractLineNumbers locations).dedup) with
    | nil =>
      simp only [hchunks]
      refine ⟨by simp, by simp, ?_⟩
      intro L hmem h1 h2
      obtain ⟨c, hc, -⟩ := buildChunks_covers (file_content.splitOn "\n") ctx hctx
        _ L (hmemsl L hmem) h1 h2
      rw [hchunks] at hc
      cases hc
    | cons c0 cs0 =>
      simp only [hchunks]
      have hall : ∀ c ∈ c0 :: cs0,
          inFile ((file_content.splitOn "\n").length : Int) c := by
        intro c hc
        exact buildChunks_inFile (file_content.splitOn "\n") ctx hctx _ c
          (by rw [hchunks]; exact hc)
      have hsorted' : List.Pairwise orderedChunks (c0 :: cs0) := by
        rw [← hchunks]
        exact buildChunks_sorted (file_content.splitOn "\n") ctx hctx _ hsorted
      obtain ⟨hpn, hpt⟩ := List.pairwise_cons.1 hsorted'
      obtain ⟨sA, sB, sC, sD⟩ := combineChunks_spec (file_content.splitOn "\n")
        cs0 c0 (hall c0 (List.mem_cons_self _ _))
        (fun c hc => hall c (List.mem_cons_of_mem _ hc)) hpn hpt
      refine ⟨sA, sC, ?_⟩
      intro L hmem h1 h2
      obtain ⟨c, hc, hcov⟩ := buildChunks_covers (file_content.splitOn "\n") ctx hctx
        _ L (hmemsl L hmem) h1 h2
      rw [hchunks] at hc
      rcases List.mem_cons.1 hc with rfl | hc'
      · exact sD L (Or.inl hcov)
      · exact sD L (Or.inr ⟨c, hc', hcov⟩)

/-- C2: output within the budget is returned unchanged; longer output keeps
the first `B / 2` and the last `B - B / 2` characters of the original
verbatim around an elision marker containing the number of elided
characters, which is `len output - B`. -/
theorem truncate_output_preserves_ends (output : List Char) (B : Nat) :
    (output.length ≤ B → truncate_output output B = output) ∧
    (B < output.length →
      ∃ header marker,
        truncate_output output B =
          header ++ output.take (B / 2) ++ marker
            ++ output.drop (output.length - (B - B / 2)) ∧
        List.IsInfix (toString (output.length - B)).data marker) := by
  constructor
  · intro h
    simp [truncate_output, h]
  · intro h
    refine ⟨"[Output too long, truncating middle portion]\n\n".data,
      "\n\n[Truncating ".data ++ (toString (output.length - B)).data
        ++ " characters]\n\n".data, ?_, ?_⟩
    · simp [truncate_output, Nat.not_le.2 h]
    · exact ⟨"\n\n[Truncating ".data, " characters]\n\n".data, rfl⟩

/-- Edits built by a `filterMap` over `range m` that stamps each edit with
its index have strictly increasing line numbers. -/
theorem pairwise_lineNumber_filterMap_range (m : Nat) (g : Nat → Option Edit)
    (hg : ∀ i e, g i = some e → e.line_number = i) :
    List.Pairwise (fun a b => a.line_number < b.line_number)
      ((List.range m).filterMap g) := by
  rw [List.pairwise_filterMap]
  refine (List.pairwise_lt_range m).imp ?_
  intro a b hab x hx y hy
  rw [Option.mem_def] at hx hy
  rw [hg a x hx, hg b y hy]
  exact hab

/-- A `filterMap` over `range m` whose function is `none` away from `i < m`
collapses to the value at `i`. -/
theorem filterMap_range_eq_at {α : Type} (g : Nat → Option α) (m i : Nat)
    (him : i < m) (hg : ∀ j, j ≠ i → g j = none) :
    (List.range m).filterMap g = (g i).toList := by
  induction m with
  | zero => omega
  | succ m ih =>
    rw [List.range_succ, List.filterMap_append]
    by_cases h : i = m
    · subst h
      have hnil : (List.range i).filterMap g = [] :=
        List.filterMap_eq_nil_iff.2 fun a ha =>
          hg a (by have := List.mem_range.1 ha; omega)
      cases hv : g i <;> simp [hnil, List.filterMap, hv]
    · have hrest : (List.range m).filterMap g = (g i).toList := ih (by omega)
      simp [hrest, List.filterMap, hg m (Ne.symm h)]

/-- C3: `create_patch` on one file records exactly the 0-based indices,
up to the longer of the two line counts and with missing lines read as
`""`, where the two versions disagree — each edit carries the original
and the new line, every differing index is recorded, no index is
recorded twice, equal contents give no edits, and contents differing at
exactly one index give exactly one edit there. -/
theorem create_patch_line_diff (f o n : String) :
    (∀ e ∈ (create_patch [f] [o] [n]).edits,
      e.file_name = f ∧
      e.line_number < max (splitlines o).length (splitlines n).length ∧
      e.line_content = (splitlines o).getD e.line_number "" ∧
      e.new_line_content = (splitlines n).getD e.line_number "" ∧
      (splitlines o).getD e.line_number "" ≠ (splitlines n).getD e.line_number "") ∧
    (∀ i, (splitlines o).getD i "" ≠ (splitlines n).getD i "" →
      i < max (splitlines o).length (splitlines n).length ∧
      ∃ e ∈ (create_patch [f] [o] [n]).edits, e.line_number = i) ∧
    List.Pairwise (fun a b => a.line_number < b.line_number)
      (create_patch [f] [o] [n]).edits ∧
    (o = n → (create_patch [f] [o] [n]).edits = []) ∧
    (∀ i, (∀ j, j ≠ i → (splitlines o).getD j "" = (splitlines n).getD j "") →
      (splitlines o).getD i "" ≠ (splitlines n).getD i "" →
      (create_patch [f] [o] [n]).edits =
        [⟨f, i, (splitlines o).getD i "", (splitlines n).getD i ""⟩]) := by
  have hedits : (create_patch [f] [o] [n]).edits = createPatchEdits f o n := by
    simp [create_patch, pyZip3]
  set ol := splitlines o with hol
  set nl := splitlines n with hnl
  set m := max ol.length nl.length with hm
  have hbound : ∀ i, ol.getD i "" ≠ nl.getD i "" → i < m := by
    intro i hne
    by_contra hge
    apply hne
    rw [List.getD_eq_default, List.getD_eq_default] <;> omega
  refine ⟨?_, ?_, ?_, ?_, ?_⟩
  · intro e he
    rw [hedits] at he
    simp only [createPatchEdits, List.mem_filterMap, List.mem_range] at he
    obtain ⟨i, him, hsome⟩ := he
    by_cases hne : ol.getD i "" ≠ nl.getD i ""
    · rw [if_pos hne] at hsome
      cases hsome
      exact ⟨rfl, him, rfl, rfl, hne⟩
    · rw [if_neg hne] at hsome
      cases hsome
  · intro i hne
    refine ⟨hbound i hne, ?_⟩
    refine ⟨⟨f, i, ol.getD i "", nl.getD i ""⟩, ?_, rfl⟩
    rw [hedits]
    simp only [createPatchEdits, List.mem_filterMap, List.mem_range]
    exact ⟨i, hbound i hne, by rw [if_pos hne]⟩
  · rw [hedits]
    unfold createPatchEdits
    apply pairwise_lineNumber_filterMap_range
    intro i e h
    simp only [] at h
    split at h
    · cases h; rfl
    · cases h
  · intro hon
    subst hon
    rw [hedits]
    unfold createPatchEdits
    apply List.filterMap_eq_nil_iff.2
    intro i _
    simp
  · intro i hall hne
    rw [hedits]
    unfold createPatchEdits
    rw [filterMap_range_eq_at _ _ i (hbound i hne)
      (fun j hj => if_neg (not_ne_iff.2 (hall j hj)))]
    rw [if_pos hne]
    rfl

/-- C9: a timed-out `ExecutionOutput` renders as the fixed timeout string
whatever its stored stdout and `max_chars`; a non-timed-out output with
absent stdout renders as the fixed no-output string; present stdout is
returned unchanged when `max_chars` is absent and truncated to
`max_chars` when given. -/
theorem render_stdout_cases (stdout : Option (List Char)) (ec₁ ec₂ : Int)
    (mc₁ mc₂ : Option Nat) (s : List Char) (m : Nat) :
    ExecutionOutput.render_stdout ⟨stdout, ec₁, true⟩ mc₁ =
      "[Running script timed out]".data ∧
    ExecutionOutput.render_stdout ⟨none, ec₂, false⟩ mc₂ =
      "[Running script produced no output]".data ∧
    ExecutionOutput.render_stdout ⟨some s, ec₂, false⟩ none = s ∧
    ExecutionOutput.render_stdout ⟨some s, ec₂, false⟩ (some m) =
      truncate_output s m := by
  refine ⟨rfl, rfl, rfl, rfl⟩

/-- C1: for every file content and location set (and non-negative context
radius), the output chunks of `create_context_chunks` are well-formed
windows into the file, pairwise non-overlapping (indeed separated by at
least one line), sorted ascending by start line; every extracted
in-range line number is covered by exactly one output chunk, and no
chunk covers an out-of-range line number — out-of-range locations are
dropped without error. -/
theorem create_context_chunks_coverage (message file_path file_content : String)
    (locations : List String) (context_lines : Int) (hctx : 0 ≤ context_lines) :
    (∀ c ∈ (create_context_chunks message locations file_path file_content
        context_lines).chunks,
      1 ≤ c.line_number ∧ 1 ≤ (c.content.length : Int) ∧
        c.line_number + (c.content.length : Int) ≤
          ((file_content.splitOn "\n").length : Int) + 1) ∧
    List.Pairwise (fun c d => c.line_number + (c.content.length : Int) < d.line_number)
      (create_context_chunks message locations file_path file_content
        context_lines).chunks ∧
    List.Pairwise (fun c d => c.line_number < d.line_number)
      (create_context_chunks message locations file_path file_content
        context_lines).chunks ∧
    (∀ L ∈ extractLineNumbers locations,
      1 ≤ L → L ≤ ((file_content.splitOn "\n").length : Int) →
      ∃! c, c ∈ (create_context_chunks message locations file_path file_content
          context_lines).chunks ∧
        c.line_number ≤ L ∧ L < c.line_number + (c.content.length : Int)) ∧
    (∀ c ∈ (create_context_chunks message locations file_path file_content
        context_lines).chunks, ∀ L,
      c.line_number ≤ L → L < c.line_number + (c.content.length : Int) →
      1 ≤ L ∧ L ≤ ((file_content.splitOn "\n").length : Int)) := by
  obtain ⟨hin, hsep, hcov⟩ := create_context_chunks_invariants message file_path
    file_content locations context_lines hctx
  have hsep' : List.Pairwise (fun a b => sepChunks a b ∨ sepChunks b a)
      (create_context_chunks message locations file_path file_content
        context_lines).chunks :=
    hsep.imp fun h => Or.inl h
  have hsym : ∀ a ∈ (create_context_chunks message locations file_path file_content
        context_lines).chunks,
      ∀ b ∈ (create_context_chunks message locations file_path file_content
        context_lines).chunks,
      a ≠ b → sepChunks a b ∨ sepChunks b a :=
    fun a ha b hb hab =>
      List.Pairwise.forall (fun x y hxy => hxy.symm) hsep' ha hb hab
  refine ⟨?_, ?_, ?_, ?_, ?_⟩
  · intro c hc
    have hf := hin c hc
    unfold inFile cStop at hf
    exact ⟨hf.1, by omega, by omega⟩
  · exact hsep.imp fun h => by unfold sepChunks cStop at h; exact h
  · refine hsep.imp_of_mem ?_
    intro c d hcm _ hcd
    have hf := hin c hcm
    unfold inFile cStop at hf
    unfold sepChunks cStop at hcd
    omega
  · intro L hmem h1 h2
    obtain ⟨c, hc, hcov'⟩ := hcov L hmem h1 h2
    obtain ⟨hc1, hc2⟩ := hcov'
    unfold cStop at hc2
    refine ⟨c, ⟨hc, hc1, hc2⟩, ?_⟩
    rintro d ⟨hd, hd1, hd2⟩
    by_contra hne
    rcases hsym d hd c hc hne with hs | hs <;>
      unfold sepChunks cStop at hs <;> omega
  · intro c hc L hL1 hL2
    have hf := hin c hc
    unfold inFile cStop at hf
    omega

/-- C1 witness: the guarantees at a concrete file of four lines, one
in-range and one out-of-range location, and radius 200. -/
theorem create_context_chunks_coverage_witness :
    (0 : Int) ≤ 200 ∧
    ((∀ c ∈ (create_context_chunks "m" ["line: 2", "line: 99"] "f.py" "a\nb\nc\nd"
        200).chunks,
      1 ≤ c.line_number ∧ 1 ≤ (c.content.length : Int) ∧
        c.line_number + (c.content.length : Int) ≤
          ((("a\nb\nc\nd" : String).splitOn "\n").length : Int) + 1) ∧
    List.Pairwise (fun c d => c.line_number + (c.content.length : Int) < d.line_number)
      (create_context_chunks "m" ["line: 2", "line: 99"] "f.py" "a\nb\nc\nd"
        200).chunks ∧
    List.Pairwise (fun c d => c.line_number < d.line_number)
      (create_context_chunks "m" ["line: 2", "line: 99"] "f.py" "a\nb\nc\nd"
        200).chunks ∧
    (∀ L ∈ extractLineNumbers ["line: 2", "line: 99"],
      1 ≤ L → L ≤ ((("a\nb\nc\nd" : String).splitOn "\n").length : Int) →
      ∃! c, c ∈ (create_context_chunks "m" ["line: 2", "line: 99"] "f.py" "a\nb\nc\nd"
          200).chunks ∧
        c.line_number ≤ L ∧ L < c.line_number + (c.content.length : Int)) ∧
    (∀ c ∈ (create_context_chunks "m" ["line: 2", "line: 99"] "f.py" "a\nb\nc\nd"
        200).chunks, ∀ L,
      c.line_number ≤ L → L < c.line_number + (c.content.length : Int) →
      1 ≤ L ∧ L ≤ ((("a\nb\nc\nd" : String).splitOn "\n").length : Int))) :=
  ⟨by norm_num,
    create_context_chunks_coverage "m" "f.py" "a\nb\nc\nd" ["line: 2", "line: 99"]
      200 (by norm_num)⟩

/-- C8: re-running the combining step of `create_context_chunks` (with the
same radius) on its own output changes nothing, and consecutive output
chunks are separated by at least one omitted line. -/
theorem create_context_chunks_merge_idempotent
    (message file_path file_content : String) (locations : List String)
    (context_lines : Int) (hctx : 0 ≤ context_lines) :
    combineAll (file_content.splitOn "\n")
        (create_context_chunks message locations file_path file_content
          context_lines).chunks =
      (create_context_chunks message locations file_path file_content
        context_lines).chunks ∧
    List.Chain' (fun c d => c.line_number + (c.content.length : Int) < d.line_number)
      (create_context_chunks message locations file_path file_content
        context_lines).chunks := by
  obtain ⟨-, hsep, -⟩ := create_context_chunks_invariants message file_path
    file_content locations context_lines hctx
  constructor
  · cases hchunks : (create_context_chunks message locations file_path file_content
        context_lines).chunks with
    | nil => rfl
    | cons c cs =>
      rw [hchunks] at hsep
      show combineChunks (file_content.splitOn "\n") c cs = c :: cs
      exact combineChunks_of_sep (file_content.splitOn "\n") cs c hsep
  · exact (hsep.imp fun h => by unfold sepChunks cStop at h; exact h).chain'

/-- C8 witness: merge idempotence at a concrete file with two locations
close enough to merge at radius 1. -/
theorem create_context_chunks_merge_idempotent_witness :
    (0 : Int) ≤ 1 ∧
    (combineAll (("a\nb\nc\nd\ne\nf" : String).splitOn "\n")
        (create_context_chunks "m" ["line: 2", "line: 4"] "f.py" "a\nb\nc\nd\ne\nf"
          1).chunks =
      (create_context_chunks "m" ["line: 2", "line: 4"] "f.py" "a\nb\nc\nd\ne\nf"
        1).chunks ∧
    List.Chain' (fun c d => c.line_number + (c.content.length : Int) < d.line_number)
      (create_context_chunks "m" ["line: 2", "line: 4"] "f.py" "a\nb\nc\nd\ne\nf"
        1).chunks) :=
  ⟨by norm_num,
    create_context_chunks_merge_idempotent "m" "f.py" "a\nb\nc\nd\ne\nf"
      ["line: 2", "line: 4"] 1 (by norm_num)⟩

/-- C4: in the local `execute_script`, a failing primary `git apply`
(non-zero exit code, no exception raised) never triggers the fuzzy
fallback — `patch_apply_exit_code` is hardcoded to `0` — and the script
is executed anyway, against a tree on which the patch was not
successfully applied. -/
theorem execute_script_runs_despite_failed_apply (env : LocalEnv)
    (patch : List Char) (reao : Bool)
    (hraise : env.resetOrApplyRaises = false)
    (hfail : env.gitApplyExitCode ≠ 0) :
    SandboxAction.gitApply Tree.disposable ∈ (execute_script env (some patch) reao).2 ∧
    (∀ t, SandboxAction.fuzzyApply t ∉ (execute_script env (some patch) reao).2) ∧
    SandboxAction.runScript Tree.disposable ∈ (execute_script env (some patch) reao).2 ∧
    (execute_script env (some patch) reao).1 = Except.ok (localRunScript env) := by
  have hcond : ¬(env.resetOrApplyRaises ∧ reao) := by
    rw [hraise]; simp
  refine ⟨?_, ?_, ?_, ?_⟩ <;>
    simp [execute_script, hcond]

/-- C4 witness: a concrete local run whose `git apply` exits with code 1
still runs the script and never attempts the fuzzy fallback. -/
theorem execute_script_runs_despite_failed_apply_witness :
    (⟨false, 1, 0, false, false, false, 2, some "out".data⟩ : LocalEnv).resetOrApplyRaises = false ∧
    (⟨false, 1, 0, false, false, false, 2, some "out".data⟩ : LocalEnv).gitApplyExitCode ≠ 0 ∧
    (SandboxAction.gitApply Tree.disposable ∈
      (execute_script ⟨false, 1, 0, false, false, false, 2, some "out".data⟩
        (some "p".data) false).2 ∧
    (∀ t, SandboxAction.fuzzyApply t ∉
      (execute_script ⟨false, 1, 0, false, false, false, 2, some "out".data⟩
        (some "p".data) false).2) ∧
    SandboxAction.runScript Tree.disposable ∈
      (execute_script ⟨false, 1, 0, false, false, false, 2, some "out".data⟩
        (some "p".data) false).2 ∧
    (execute_script ⟨false, 1, 0, false, false, false, 2, some "out".data⟩
      (some "p".data) false).1 =
        Except.ok (localRunScript ⟨false, 1, 0, false, false, false, 2, some "out".data⟩)) :=
  ⟨rfl, by decide,
    execute_script_runs_despite_failed_apply _ "p".data false rfl (by decide)⟩

/-- C5 counterexample: with the default
`return_error_as_execution_output = False`, a container run whose primary
and fallback patch applications both fail raises `ValueError` instead of
returning an `ExecutionOutput`. -/
theorem execute_script_container_double_failure_raises :
    (execute_script_container ⟨1, 1, 0, [], false⟩ (some "p".data) false).1 =
      Except.error (PyError.valueError "error applying patch") := by
  rfl

/-- C5 (amended): when both patch applications fail, the container run
returns the diagnostic `ExecutionOutput` with exit code 1 — and never
runs the script — exactly when `return_error_as_execution_output` is
true; with it false the run raises `ValueError`. -/
theorem execute_script_container_double_failure (env : ContainerEnv)
    (patch : List Char)
    (h1 : env.gitApplyExitCode ≠ 0) (h2 : env.fuzzyApplyExitCode ≠ 0) :
    (execute_script_container env (some patch) true).1 =
      Except.ok ⟨some "Could not apply patch to repository".data, 1, false⟩ ∧
    (∀ t, SandboxAction.runScript t ∉ (execute_script_container env (some patch) true).2) ∧
    (execute_script_container env (some patch) false).1 =
      Except.error (PyError.valueError "error applying patch") := by
  refine ⟨?_, ?_, ?_⟩ <;>
    simp [execute_script_container, h1, h2]

/-- C5 witness: the amended statement at a concrete doubly-failing
environment. -/
theorem execute_script_container_double_failure_witness :
    (execute_script_container ⟨1, 1, 0, [], false⟩ (some "q".data) true).1 =
      Except.ok ⟨some "Could not apply patch to repository".data, 1, false⟩ ∧
    (∀ t, SandboxAction.runScript t ∉
      (execute_script_container ⟨1, 1, 0, [], false⟩ (some "q".data) true).2) ∧
    (execute_script_container ⟨1, 1, 0, [], false⟩ (some "q".data) false).1 =
      Except.error (PyError.valueError "error applying patch") :=
  execute_script_container_double_failure ⟨1, 1, 0, [], false⟩ "q".data
    (by decide) (by decide)

/-- C6: whenever a sandbox run (container-based or local) actually executes
the script and the script times out, the returned `ExecutionOutput` has
its exit code forced to 1 and `timed_out` set. -/
theorem timeout_forces_exit_code_one
    (cenv : ContainerEnv) (lenv : LocalEnv) (patchC patchL : Option (List Char))
    (reaoC reaoL : Bool) (eoC eoL : ExecutionOutput)
    (hc : cenv.scriptTimedOut = true)
    (hcr : SandboxAction.runScript Tree.disposable ∈
      (execute_script_container cenv patchC reaoC).2)
    (hco : (execute_script_container cenv patchC reaoC).1 = Except.ok eoC)
    (hl : lenv.scriptTimedOut = true)
    (hlr : SandboxAction.runScript Tree.disposable ∈
      (execute_script lenv patchL reaoL).2)
    (hlo : (execute_script lenv patchL reaoL).1 = Except.ok eoL) :
    (eoC.exit_code = 1 ∧ eoC.timed_out = true) ∧
    (eoL.exit_code = 1 ∧ eoL.timed_out = true) := by
  constructor
  · have : eoC = containerRunScript cenv := by
      rcases patchC with - | p
      · simp [execute_script_container] at hco
        exact hco.symm
      · by_cases hg : cenv.gitApplyExitCode ≠ 0
        · by_cases hf : cenv.fuzzyApplyExitCode ≠ 0
          · cases reaoC <;> simp [execute_script_container, hg, hf] at hcr
          · simp [execute_script_container, hg, hf] at hco
            exact hco.symm
        · simp [execute_script_container, hg] at hco
          exact hco.symm
    rw [this]
    simp [containerRunScript, hc]
  · have : eoL = localRunScript lenv := by
      rcases patchL with - | p
      · simp [execute_script] at hlo
        exact hlo.symm
      · by_cases hra : lenv.resetOrApplyRaises ∧ reaoL
        · simp [execute_script, hra] at hlr
        · simp [execute_script, hra] at hlo
          exact hlo.symm
    rw [this]
    simp [localRunScript, hl]

/-- C6 witness: concrete timed-out runs (no patch) in both models. -/
theorem timeout_forces_exit_code_one_witness :
    (((⟨0, 0, 5, [], true⟩ : ContainerEnv).scriptTimedOut = true) ∧
     ((⟨false, 0, 0, false, true, false, 5, none⟩ : LocalEnv).scriptTimedOut = true)) ∧
    (((containerRunScript ⟨0, 0, 5, [], true⟩).exit_code = 1 ∧
      (containerRunScript ⟨0, 0, 5, [], true⟩).timed_out = true) ∧
     ((localRunScript ⟨false, 0, 0, false, true, false, 5, none⟩).exit_code = 1 ∧
      (localRunScript ⟨false, 0, 0, false, true, false, 5, none⟩).timed_out = true)) :=
  ⟨⟨rfl, rfl⟩,
    timeout_forces_exit_code_one ⟨0, 0, 5, [], true⟩
      ⟨false, 0, 0, false, true, false, 5, none⟩ none none false false
      (containerRunScript ⟨0, 0, 5, [], true⟩)
      (localRunScript ⟨false, 0, 0, false, true, false, 5, none⟩)
      rfl (by decide) rfl rfl (by decide) rfl⟩

/-- C7: the local `execute_script` touches only the disposable copy, but
`run_swebench_test_local` with a non-empty patch issues a
patch-application command with `cwd = problem.repo_location` — the
canonical tree is mutated, not left unchanged. -/
theorem run_swebench_test_local_mutates_canonical
    (c1 c2 : Bool) (env : LocalEnv) (patch : List Char) (reao : Bool)
    (hp : patch ≠ []) :
    (∀ a ∈ (execute_script env (some patch) reao).2,
      a.tree ≠ some Tree.canonical) ∧
    SandboxAction.gitApply Tree.canonical ∈
      run_swebench_test_local_actions c1 c2 env patch := by
  constructor
  · intro a ha
    by_cases hra : env.resetOrApplyRaises ∧ reao
    · simp [execute_script, hra] at ha
      rcases ha with rfl | rfl | rfl | rfl <;> simp [SandboxAction.tree]
    · simp [execute_script, hra] at ha
      rcases ha with rfl | rfl | rfl | rfl | rfl | rfl <;> simp [SandboxAction.tree]
  · unfold run_swebench_test_local_actions swebenchLocalApplyLoop
    rw [if_pos hp]
    simp

/-- C7 witness: a concrete `run_swebench_test_local` trace with a one-byte
patch contains a `git apply` against the canonical tree, while the inner
`execute_script` trace touches only the disposable copy. -/
theorem run_swebench_test_local_mutates_canonical_witness :
    ("p".data ≠ ([] : List Char)) ∧
    ((∀ a ∈ (execute_script ⟨false, 0, 0, false, false, false, 0, none⟩
        (some "p".data) false).2, a.tree ≠ some Tree.canonical) ∧
      SandboxAction.gitApply Tree.canonical ∈
        run_swebench_test_local_actions false false
          ⟨false, 0, 0, false, false, false, 0, none⟩ "p".data) :=
  ⟨by decide,
    run_swebench_test_local_mutates_canonical false false
      ⟨false, 0, 0, false, false, false, 0, none⟩ "p".data false (by decide)⟩

/-- C10: a localization work item whose file content's token count exceeds
`max_file_tokens` makes `_run_work` return without requesting a
completion and without saving relevant chunks — the persistent store is
returned unchanged. -/
theorem run_work_skips_oversized_files (max_file_tokens : Nat)
    (store : List (String × RelevantChunks)) (env : LocalizationWorkEnv)
    (file_path file_content : String)
    (h : env.tokenCount > max_file_tokens) :
    (run_work max_file_tokens store env file_path file_content).1 = store ∧
    LocAction.completionRequest ∉
      (run_work max_file_tokens store env file_path file_content).2 ∧
    LocAction.saveRelevantChunks ∉
      (run_work max_file_tokens store env file_path file_content).2 := by
  by_cases hd : env.decisionExists <;>
    refine ⟨?_, ?_, ?_⟩ <;>
      simp [run_work, hd, h]

/-- C10 witness: a concrete oversized work item leaves a concrete store
unchanged and issues no completion request. -/
theorem run_work_skips_oversized_files_witness :
    ((⟨false, 101, "resp", []⟩ : LocalizationWorkEnv).tokenCount > 100) ∧
    ((run_work 100 [] ⟨false, 101, "resp", []⟩ "a.py" "content").1 = [] ∧
      LocAction.completionRequest ∉
        (run_work 100 [] ⟨false, 101, "resp", []⟩ "a.py" "content").2 ∧
      LocAction.saveRelevantChunks ∉
        (run_work 100 [] ⟨false, 101, "resp", []⟩ "a.py" "content").2) :=
  ⟨by decide,
    run_work_skips_oversized_files 100 [] ⟨false, 101, "resp", []⟩
      "a.py" "content" (by decide)⟩

end CodeMonkeys
